import Mathlib

/-!
Verification of the Variant serialization core and the Npy output format of
this repository.

The repository excerpt contains the full body of
`src/Processors/Formats/Impl/NpyOutputFormat.cpp` and the declaration header
`src/DataTypes/Serializations/SerializationVariant.h` (the member bodies of
`SerializationVariant` are not part of the excerpt).  The Npy definitions
below are therefore translated directly from the C++ source, while the
Variant codec is modelled from the specification text (each such definition
says so in its doc comment).

Conventions: byte streams are `List Nat`; a row of a Variant column with `N`
alternatives over a common value type `α` is `Option (Fin N × α)`, where
`none` is the NULL sentinel; per-alternative sub-streams are modelled at the
granularity of the uniform alternative-codec contract, i.e. as lists of the
dense, packed values owned by that alternative.
-/

namespace SerializationVariant

/-- Modelled from the spec: a logical row of a Variant column with `N`
alternatives — either the null sentinel (`none`) or an alternative index
together with the value held by that alternative. -/
abbrev Row (N : Nat) (α : Type) : Type := Option (Fin N × α)

/-- Modelled from the spec: the discriminator of a row — the alternative
index, or `none` for the NULL sentinel. -/
def rowDiscr {N : Nat} {α : Type} : Row N α → Option (Fin N)
  | none => none
  | some (i, _) => some i

/-- Modelled from the spec: the physical representation of a Variant column —
a discriminator sequence (one entry per row) plus one dense sub-column per
alternative.  The bulk stream layout is the same shape: a flat discriminator
stream plus, per alternative, that alternative dense packed values. -/
structure VariantCol (N : Nat) (α : Type) where
  discrs : List (Option (Fin N))
  subcols : Fin N → List α

theorem variantCol_eq_iff {N : Nat} {α : Type} (a b : VariantCol N α) :
    a = b ↔ a.discrs = b.discrs ∧ a.subcols = b.subcols := by
  constructor
  · intro h; subst h; exact ⟨rfl, rfl⟩
  · intro ⟨h1, h2⟩; cases a; cases b; simp_all

/-- Number of occurrences of discriminator `i` in a discriminator sequence. -/
def countD {N : Nat} (i : Fin N) (ds : List (Option (Fin N))) : Nat :=
  ds.countP (fun d => decide (d = some i))

/-- Modelled from the spec: the value alternative `i` extracts from a row —
`some v` when the row holds alternative `i` with value `v`, else `none`. -/
def subcolFn {N : Nat} {α : Type} (i : Fin N) : Row N α → Option α
  | none => none
  | some (j, v) => if j = i then some v else none

/-- Modelled from the spec: the dense sub-column of alternative `i`. -/
def subcolOf {N : Nat} {α : Type} (i : Fin N) (rows : List (Row N α)) : List α :=
  rows.filterMap (subcolFn i)

/-- Modelled from the spec: the packing production of the codec — given the
logical row sequence, build the Variant column: the discriminator sequence is
the per-row discriminator, and sub-column `i` holds exactly the values of the
rows whose discriminator is `i`, in row order (dense packing). -/
def toCol {N : Nat} {α : Type} (rows : List (Row N α)) : VariantCol N α :=
  { discrs := rows.map rowDiscr
    subcols := fun i => subcolOf i rows }

theorem subcolOf_nil {N : Nat} {α : Type} (i : Fin N) :
    subcolOf i ([] : List (Row N α)) = [] := rfl

theorem subcolOf_cons_none {N : Nat} {α : Type} (i : Fin N) (rs : List (Row N α)) :
    subcolOf i ((none : Row N α) :: rs) = subcolOf i rs := by
  simp [subcolOf, subcolFn, List.filterMap_cons]

theorem subcolOf_cons_some {N : Nat} {α : Type} (i j : Fin N) (v : α) (rs : List (Row N α)) :
    subcolOf i ((some (j, v) : Row N α) :: rs)
      = if j = i then v :: subcolOf i rs else subcolOf i rs := by
  by_cases h : j = i <;> simp [subcolOf, subcolFn, List.filterMap_cons, h]

theorem toCol_discrs_length {N : Nat} {α : Type} (rows : List (Row N α)) :
    (toCol rows).discrs.length = rows.length := by
  simp [toCol]

theorem toCol_subcol_length {N : Nat} {α : Type} (rows : List (Row N α)) (i : Fin N) :
    ((toCol rows).subcols i).length = countD i (toCol rows).discrs := by
  show (subcolOf i rows).length = countD i (rows.map rowDiscr)
  induction rows with
  | nil => simp [subcolOf_nil, countD]
  | cons r rs ih =>
    cases r with
    | none =>
      rw [subcolOf_cons_none]
      simpa [countD, List.countP_cons, rowDiscr] using ih
    | some p =>
      obtain ⟨j, v⟩ := p
      rw [subcolOf_cons_some]
      by_cases h : j = i
      · subst h
        simpa [countD, List.countP_cons, rowDiscr] using ih
      · rw [if_neg h]
        simpa [countD, List.countP_cons, rowDiscr, h] using ih

theorem toCol_filter_eq {N : Nat} {α : Type} (rows : List (Row N α)) (i : Fin N) :
    rows.filter (fun r => decide (rowDiscr r = some i))
      = ((toCol rows).subcols i).map (fun v => some (i, v)) := by
  show _ = (subcolOf i rows).map (fun v => some (i, v))
  induction rows with
  | nil => simp [subcolOf_nil]
  | cons r rs ih =>
    cases r with
    | none =>
      rw [subcolOf_cons_none, List.filter_cons_of_neg]
      · exact ih
      · simp [rowDiscr]
    | some p =>
      obtain ⟨j, v⟩ := p
      rw [subcolOf_cons_some]
      by_cases h : j = i
      · subst h
        rw [if_pos rfl, List.filter_cons_of_pos, List.map_cons]
        · exact congrArg (fun l => some (j, v) :: l) ih
        · simp [rowDiscr]
      · rw [if_neg h, List.filter_cons_of_neg]
        · exact ih
        · simp [rowDiscr, h]

/-- Modelled from the spec: the bulk stream bundle written by the write path —
a flat discriminator stream plus, per alternative, a stream of that
alternative dense packed values (each alternative codec is invoked through
the uniform contract, so its stream is modelled at value granularity). -/
structure VariantStreams (N : Nat) (α : Type) where
  discrs : List (Option (Fin N))
  alts : Fin N → List α

theorem variantStreams_eq_iff {N : Nat} {α : Type} (a b : VariantStreams N α) :
    a = b ↔ a.discrs = b.discrs ∧ a.alts = b.alts := by
  constructor
  · intro h; subst h; exact ⟨rfl, rfl⟩
  · intro ⟨h1, h2⟩; cases a; cases b; simp_all

/-- Modelled from the spec: `WriteChunk` — serialize rows
`[offset, offset+limit)` of a Variant column: the discriminator values of the
range go to the discriminator stream; for each alternative `i` the
DiscriminatorResolver yields `inner_offset` = count of rows with
discriminator `i` before the range and `inner_limit` = count within the
range, and that slice of the dense sub-column goes to the alternative
stream. -/
def serializeChunk {N : Nat} {α : Type} (col : VariantCol N α) (offset limit : Nat) :
    VariantStreams N α :=
  let d := (col.discrs.drop offset).take limit
  { discrs := d
    alts := fun i =>
      ((col.subcols i).drop (countD i (col.discrs.take offset))).take (countD i d) }

/-- Modelled from the spec: the empty accumulated output column. -/
def emptyCol (N : Nat) (α : Type) : VariantCol N α :=
  { discrs := [], subcols := fun _ => [] }

/-- Modelled from the spec: fully consumed streams. -/
def emptyStreams (N : Nat) (α : Type) : VariantStreams N α :=
  { discrs := [], alts := fun _ => [] }

/-- Modelled from the spec: `ReadChunk` — read `limit` discriminator values
first, derive via a discriminator scan how many rows belong to each
alternative within the chunk, consume exactly that many values from each
alternative stream, and append discriminators and values to the output
Variant column. -/
def readChunk {N : Nat} {α : Type} (limit : Nat) (st : VariantStreams N α)
    (col : VariantCol N α) : VariantStreams N α × VariantCol N α :=
  let d := st.discrs.take limit
  ({ discrs := st.discrs.drop limit
     alts := fun i => (st.alts i).drop (countD i d) },
   { discrs := col.discrs ++ d
     subcols := fun i => col.subcols i ++ (st.alts i).take (countD i d) })

/-- Modelled from the spec: repeated `ReadChunk` calls, one per caller-chosen
chunk size, threading the remaining streams and the accumulated column. -/
def readChunks {N : Nat} {α : Type} :
    List Nat → VariantStreams N α → VariantCol N α → VariantStreams N α × VariantCol N α
  | [], st, col => (st, col)
  | k :: ks, st, col => readChunks ks (readChunk k st col).1 (readChunk k st col).2

theorem countD_take_drop {N : Nat} (i : Fin N) (k : Nat) (l : List (Option (Fin N))) :
    countD i (l.take k) + countD i (l.drop k) = countD i l := by
  unfold countD
  rw [← List.countP_append, List.take_append_drop]

theorem readChunks_components {N : Nat} {α : Type} (ks : List Nat)
    (D : List (Option (Fin N))) (A : Fin N → List α) (acc : VariantCol N α)
    (h : ks.sum = D.length) :
    (readChunks ks ⟨D, A⟩ acc).1.discrs = [] ∧
    (∀ i, (readChunks ks ⟨D, A⟩ acc).1.alts i = (A i).drop (countD i D)) ∧
    (readChunks ks ⟨D, A⟩ acc).2.discrs = acc.discrs ++ D ∧
    (∀ i, (readChunks ks ⟨D, A⟩ acc).2.subcols i = acc.subcols i ++ (A i).take (countD i D)) := by
  induction ks generalizing D A acc with
  | nil =>
    have hD : D = [] := by
      have : D.length = 0 := by simpa [List.sum_nil] using h.symm
      exact List.eq_nil_of_length_eq_zero this
    subst hD
    refine ⟨rfl, fun i => by simp [readChunks, countD], by simp [readChunks],
      fun i => by simp [readChunks, countD]⟩
  | cons k ks ih =>
    have hk : k ≤ D.length := by
      simp only [List.sum_cons] at h; omega
    have hsum : ks.sum = (D.drop k).length := by
      simp only [List.sum_cons] at h
      simp [List.length_drop]; omega
    have hstep := ih (D.drop k) (fun i => (A i).drop (countD i (D.take k)))
      ⟨acc.discrs ++ D.take k,
       fun i => acc.subcols i ++ (A i).take (countD i (D.take k))⟩ hsum
    obtain ⟨h1, h2, h3, h4⟩ := hstep
    refine ⟨?_, ?_, ?_, ?_⟩
    · simpa [readChunks, readChunk] using h1
    · intro i
      have := h2 i
      simp only [readChunks, readChunk] at *
      rw [this, List.drop_drop]
      have hc := countD_take_drop i k D
      rw [hc]
    · have := h3
      simp only [readChunks, readChunk] at *
      rw [this, List.append_assoc, List.take_append_drop]
    · intro i
      have := h4 i
      simp only [readChunks, readChunk] at *
      rw [this, List.append_assoc, ← List.take_add, countD_take_drop]

theorem serializeChunk_full {N : Nat} {α : Type} (col : VariantCol N α)
    (hwf : ∀ i, (col.subcols i).length = countD i col.discrs) :
    serializeChunk col 0 col.discrs.length = ⟨col.discrs, col.subcols⟩ := by
  rw [variantStreams_eq_iff]
  constructor
  · simp [serializeChunk]
  · funext i
    have h0 : countD i (col.discrs.take 0) = 0 := by simp [countD]
    simp only [serializeChunk, List.drop_zero, List.take_length, h0]
    rw [← hwf i, List.take_length]

/-- C1: For the Variant column produced by the packing of a logical row
sequence, the discriminator sequence has one entry per row; for every
alternative `i`, sub-column `i` has exactly as many elements as there are
rows with discriminator `i`; and the subsequence of rows carrying
discriminator `i`, in order, is exactly sub-column `i` with each value tagged
by `i` — order-preserving, gap-free dense packing. -/
theorem packing_invariant {N : Nat} {α : Type} (rows : List (Row N α)) :
    (toCol rows).discrs.length = rows.length ∧
    (∀ i : Fin N, ((toCol rows).subcols i).length = countD i (toCol rows).discrs) ∧
    (∀ i : Fin N, rows.filter (fun r => decide (rowDiscr r = some i))
        = ((toCol rows).subcols i).map (fun v => some (i, v))) :=
  ⟨toCol_discrs_length rows,
   fun i => toCol_subcol_length rows i,
   fun i => toCol_filter_eq rows i⟩

end SerializationVariant

namespace SerializationVariant

theorem readChunks_roundtrip {N : Nat} {α : Type} (col : VariantCol N α) (ks : List Nat)
    (hwf : ∀ i, (col.subcols i).length = countD i col.discrs)
    (hsum : ks.sum = col.discrs.length) :
    readChunks ks (serializeChunk col 0 col.discrs.length) (emptyCol N α)
      = (emptyStreams N α, col) := by
  rw [serializeChunk_full col hwf]
  obtain ⟨h1, h2, h3, h4⟩ := readChunks_components ks col.discrs col.subcols (emptyCol N α) hsum
  rw [Prod.ext_iff]
  constructor
  · rw [variantStreams_eq_iff]
    refine ⟨by simpa [emptyStreams] using h1, funext fun i => ?_⟩
    rw [h2 i, ← hwf i, List.drop_length]
    rfl
  · rw [variantCol_eq_iff]
    refine ⟨by simpa [emptyCol] using h3, funext fun i => ?_⟩
    rw [h4 i, ← hwf i, List.take_length]
    simp [emptyCol]

/-- C3: for any Variant column (satisfying the packing invariant), any number
of chunks `K ≥ 1` and any partition of the row count `M` into `K` positive
chunk sizes, bulk-encoding the column in one chunk of size `M` and
bulk-decoding in those `K` chunks yields exactly the original column with the
streams fully consumed — the one-chunk and `K`-chunk decode paths agree. -/
theorem chunked_bulk_equivalence {N : Nat} {α : Type} (col : VariantCol N α) (ks : List Nat)
    (hwf : ∀ i, (col.subcols i).length = countD i col.discrs)
    (hsum : ks.sum = col.discrs.length)
    (hK : 1 ≤ ks.length) (hpos : ∀ k ∈ ks, 0 < k) :
    readChunks ks (serializeChunk col 0 col.discrs.length) (emptyCol N α)
      = (emptyStreams N α, col) :=
  readChunks_roundtrip col ks hwf hsum

/-- Concrete two-alternative column used as a witness input: rows
`[alt 0 with value 1, alt 1 with value 7, alt 0 with value 2]`. -/
def wCol : VariantCol 2 Nat :=
  { discrs := [some 0, some 1, some 0]
    subcols := fun i => if i.val = 0 then [1, 2] else [7] }

/-- Witness for C3: the concrete column `wCol` (3 rows), encoded in one chunk
and decoded in two chunks of sizes 2 and 1, is reproduced exactly. -/
theorem chunked_bulk_equivalence_witness :
    readChunks [2, 1] (serializeChunk wCol 0 wCol.discrs.length) (emptyCol 2 Nat)
      = (emptyStreams 2 Nat, wCol) :=
  chunked_bulk_equivalence wCol [2, 1] (by decide) (by decide) (by decide) (by decide)

/-- Modelled from the spec: the uniform single-value binary codec contract of
an alternative: encode a value to bytes; decode a byte stream to the value
plus the remaining bytes, or fail. -/
structure AltCodec (α : Type) where
  enc : α → List Nat
  dec : List Nat → Option (α × List Nat)

/-- Modelled from the spec: the reserved sentinel discriminator byte meaning
NULL (no alternative holds a value). -/
def NULL_DISCRIMINATOR : Nat := 255

/-- Modelled from the spec: single-value binary encode — write the
discriminator (or the null sentinel), then, only if not null, delegate to
that alternative own single-value binary writer. -/
def serializeBinaryField {N : Nat} {α : Type} (codecs : Fin N → AltCodec α) :
    Row N α → List Nat
  | none => [NULL_DISCRIMINATOR]
  | some (i, v) => i.val :: (codecs i).enc v

/-- Modelled from the spec: single-value binary decode — read the
discriminator byte; the null sentinel produces the null row; a discriminator
in `[0, N)` delegates to that alternative single-value reader and tags the
value with the alternative index; any other byte is a fatal decode error. -/
def deserializeBinaryField {N : Nat} {α : Type} (codecs : Fin N → AltCodec α) :
    List Nat → Option (Row N α × List Nat)
  | [] => none
  | d :: rest =>
    if d = NULL_DISCRIMINATOR then some (none, rest)
    else if h : d < N then
      ((codecs ⟨d, h⟩).dec rest).map (fun p => (some (⟨d, h⟩, p.1), p.2))
    else none

/-- C2: for every alternative and every legal value, including the null
sentinel, single-value binary decode inverts single-value binary encode, and
the bulk path agrees: one full bulk write/read cycle of a single-row chunk
reproduces exactly the one-row column holding that value. Hypotheses: the
alternative count fits below the sentinel byte, and each alternative codec
satisfies the uniform round-trip contract. -/
theorem binary_roundtrip {N : Nat} {α : Type} (codecs : Fin N → AltCodec α)
    (hN : N ≤ 255)
    (hrt : ∀ (i : Fin N) (v : α) (rest : List Nat),
      (codecs i).dec ((codecs i).enc v ++ rest) = some (v, rest))
    (r : Row N α) :
    deserializeBinaryField codecs (serializeBinaryField codecs r) = some (r, []) ∧
    readChunks [1] (serializeChunk (toCol [r]) 0 (toCol [r]).discrs.length) (emptyCol N α)
      = (emptyStreams N α, toCol [r]) := by
  constructor
  · cases r with
    | none => simp [serializeBinaryField, deserializeBinaryField]
    | some p =>
      obtain ⟨i, v⟩ := p
      have hi : i.val < N := i.isLt
      have hne : ¬ i.val = NULL_DISCRIMINATOR := by unfold NULL_DISCRIMINATOR; omega
      simp only [serializeBinaryField, deserializeBinaryField]
      rw [if_neg hne, dif_pos hi, Fin.eta]
      have h2 := hrt i v []
      rw [List.append_nil] at h2
      rw [h2]
      rfl
  · exact readChunks_roundtrip (toCol [r]) [1]
      (fun i => toCol_subcol_length [r] i)
      (by simp [toCol_discrs_length])

/-- Concrete single-byte alternative codec used by the C2 witness. -/
def byteCodec : AltCodec Nat :=
  { enc := fun v => [v]
    dec := fun l => match l with | [] => none | b :: r => some (b, r) }

/-- Witness for C2: with two single-byte alternatives, the row holding
alternative 1 with value 42 round-trips through the single-value codec and
through a one-row bulk cycle. -/
theorem binary_roundtrip_witness :
    deserializeBinaryField (fun _ : Fin 2 => byteCodec)
        (serializeBinaryField (fun _ : Fin 2 => byteCodec)
          (some ((1 : Fin 2), 42))) = some (some ((1 : Fin 2), 42), []) ∧
    readChunks [1]
        (serializeChunk (toCol [some ((1 : Fin 2), 42)]) 0
          (toCol [some ((1 : Fin 2), 42)]).discrs.length) (emptyCol 2 Nat)
      = (emptyStreams 2 Nat, toCol [some ((1 : Fin 2), 42)]) :=
  binary_roundtrip (fun _ => byteCodec) (by decide) (fun _ _ _ => rfl)
    (some ((1 : Fin 2), 42))

end SerializationVariant

namespace SerializationVariant

/-- Modelled from the spec: try the alternatives of the deserialize-order
permutation in turn against the materialized token; the first alternative
whose trial parse succeeds wins and its value is committed tagged with its
index; if none succeeds the whole attempt fails. -/
def tryAlternatives {N : Nat} {α : Type} (tryNested : Fin N → List Char → Option α)
    (field : List Char) : List (Fin N) → Option (Row N α)
  | [] => none
  | i :: order =>
    match tryNested i field with
    | some v => some (some (i, v))
    | none => tryAlternatives tryNested field order

/-- Modelled from the spec: the shared ambiguous-text resolution core
(`tryDeserializeImpl`): the token has already been materialized into
`field`; if it matches the dialect null representation, assign the null
sentinel and stop; otherwise iterate the deserialize-order permutation. -/
def tryDeserializeImpl {N : Nat} {α : Type} (checkNull : List Char → Bool)
    (order : List (Fin N)) (tryNested : Fin N → List Char → Option α)
    (field : List Char) : Option (Row N α) :=
  if checkNull field then some none
  else tryAlternatives tryNested field order

/-- Modelled from the spec: a non-try text entry point — a resolution
failure becomes a hard decode error naming the Variant type. -/
def deserializeTextImpl {N : Nat} {α : Type} (checkNull : List Char → Bool)
    (order : List (Fin N)) (tryNested : Fin N → List Char → Option α)
    (field : List Char) (variant_name : String) : Except String (Row N α) :=
  match tryDeserializeImpl checkNull order tryNested field with
  | some r => Except.ok r
  | none => Except.error ("Cannot parse text as variant " ++ variant_name)

/-- C4: in ambiguous text deserialization, if the materialized token matches
the dialect null representation then the null sentinel is assigned and the
call stops; no alternative trial parse is attempted — the result does not
depend on the trial-parse functions at all, so the null check precedes every
alternative trial. -/
theorem null_checked_before_trials {N : Nat} {α : Type} (checkNull : List Char → Bool)
    (order : List (Fin N)) (tryNested other : Fin N → List Char → Option α)
    (field : List Char) (h : checkNull field = true) :
    tryDeserializeImpl checkNull order tryNested field = some none ∧
    tryDeserializeImpl checkNull order other field
      = tryDeserializeImpl checkNull order tryNested field := by
  constructor <;> simp [tryDeserializeImpl, h]

/-- Null predicate of the escaped dialect used by witnesses: the token is the
two characters backslash-N. -/
def wCheckNull (field : List Char) : Bool := field = ['\\', 'N']

/-- Witness for C4: on the escaped null token, resolution yields the null
sentinel whether the trial functions always fail or always succeed. -/
theorem null_checked_before_trials_witness :
    tryDeserializeImpl wCheckNull ([0, 1] : List (Fin 2))
        (fun _ _ => (none : Option Nat)) ['\\', 'N'] = some none ∧
    tryDeserializeImpl wCheckNull ([0, 1] : List (Fin 2))
        (fun _ _ => (some 5 : Option Nat)) ['\\', 'N']
      = tryDeserializeImpl wCheckNull ([0, 1] : List (Fin 2))
        (fun _ _ => (none : Option Nat)) ['\\', 'N'] :=
  null_checked_before_trials wCheckNull [0, 1] (fun _ _ => none) (fun _ _ => some 5)
    ['\\', 'N'] (by decide)

theorem tryAlternatives_all_fail {N : Nat} {α : Type}
    (tryNested : Fin N → List Char → Option α) (field : List Char) :
    ∀ os : List (Fin N), (∀ i ∈ os, tryNested i field = none) →
      tryAlternatives tryNested field os = none := by
  intro os
  induction os with
  | nil => intro _; rfl
  | cons i os ih =>
    intro hf
    have h0 : tryNested i field = none := hf i (List.mem_cons_self i os)
    simp only [tryAlternatives, h0]
    exact ih (fun j hj => hf j (List.mem_cons_of_mem i hj))

/-- C5: if the token does not match the null representation and no
alternative trial parse (tried in deserialize order) succeeds, the try entry
point reports failure (`none` — no value of any alternative is committed)
and the non-try entry point raises a hard decode error naming the Variant
type; there is no silent fallback to an arbitrary alternative. -/
theorem resolution_failure_no_fallback {N : Nat} {α : Type} (checkNull : List Char → Bool)
    (order : List (Fin N)) (tryNested : Fin N → List Char → Option α)
    (field : List Char) (variant_name : String)
    (h : checkNull field = false)
    (hfail : ∀ i ∈ order, tryNested i field = none) :
    tryDeserializeImpl checkNull order tryNested field = none ∧
    deserializeTextImpl checkNull order tryNested field variant_name
      = Except.error ("Cannot parse text as variant " ++ variant_name) := by
  have hA := tryAlternatives_all_fail tryNested field order hfail
  constructor
  · simp [tryDeserializeImpl, h, hA]
  · simp [deserializeTextImpl, tryDeserializeImpl, h, hA]

/-- Witness for C5: a token that is not the null literal and that every
alternative rejects makes the try entry point return failure and the strict
entry point return the hard error. -/
theorem resolution_failure_no_fallback_witness :
    tryDeserializeImpl wCheckNull ([0, 1] : List (Fin 2))
        (fun _ _ => (none : Option Nat)) ['a', 'b'] = none ∧
    deserializeTextImpl wCheckNull ([0, 1] : List (Fin 2))
        (fun _ _ => (none : Option Nat)) ['a', 'b'] "Variant(Int32, Date)"
      = Except.error ("Cannot parse text as variant " ++ "Variant(Int32, Date)") :=
  resolution_failure_no_fallback wCheckNull [0, 1] (fun _ _ => none) ['a', 'b']
    "Variant(Int32, Date)" (by decide) (fun _ _ => rfl)

end SerializationVariant

namespace SerializationVariant

/-- Modelled from the spec: `getVariantsDeserializeTextOrder` — a static,
type-driven ranking computed once from the declared alternative type list.
Each alternative type contributes a priority (narrower grammar = larger
priority, permissive string-like types smallest); the result is the index
list `[0, N)` stably sorted by descending priority. It takes only the static
type-priority list, never column data. -/
def getVariantsDeserializeTextOrder (priorities : List Nat) : List Nat :=
  (List.range priorities.length).insertionSort
    (fun a b => priorities.getD b 0 ≤ priorities.getD a 0)

/-- C6: for a fixed list of `N` alternative types,
`getVariantsDeserializeTextOrder` is deterministic — any invocation on an
equal type list returns the same result — and the result is a permutation of
`[0, N)`; it is a function of the static type list alone. -/
theorem deserialize_text_order_perm (priorities : List Nat) :
    List.Perm (getVariantsDeserializeTextOrder priorities)
      (List.range priorities.length) ∧
    ∀ qs : List Nat, qs = priorities →
      getVariantsDeserializeTextOrder qs = getVariantsDeserializeTextOrder priorities := by
  constructor
  · exact List.perm_insertionSort _ _
  · intro qs hq
    rw [hq]

/-- Witness for C6 at the concrete priority list `[1, 0]` (a narrow numeric
alternative ranked above a permissive string alternative). -/
theorem deserialize_text_order_perm_witness :
    List.Perm (getVariantsDeserializeTextOrder [1, 0]) (List.range 2) ∧
    getVariantsDeserializeTextOrder [1, 0] = getVariantsDeserializeTextOrder [1, 0] :=
  ⟨(deserialize_text_order_perm [1, 0]).1,
   (deserialize_text_order_perm [1, 0]).2 [1, 0] rfl⟩

/-- Modelled from the spec: a text-dialect try entry point — the token is
materialized from the input stream exactly once by the dialect tokenizer
`readField`, and resolution runs only on the materialized buffer (each trial
parse gets a fresh cursor over it); the position of the original stream
after the call is wherever the tokenizer left it. -/
def tryDeserializeText {β : Type} (readField : List Char → List Char × List Char)
    (resolve : List Char → Option β) (input : List Char) :
    Option β × List Char :=
  (resolve (readField input).1, (readField input).2)

/-- C7: for a tokenizer that leaves the stream exactly at the end of the
materialized token, the stream position after the call is exactly the end of
the token, and it does not depend on the resolver at all — in particular any
number of failed trial parses leaves the outer stream cursor unchanged. -/
theorem no_cursor_drift_on_failed_trials {β : Type}
    (readField : List Char → List Char × List Char) (input : List Char)
    (resolve other : List Char → Option β)
    (htok : (readField input).2 = input.drop (readField input).1.length) :
    (tryDeserializeText readField resolve input).2
      = input.drop (readField input).1.length ∧
    (tryDeserializeText readField other input).2
      = (tryDeserializeText readField resolve input).2 :=
  ⟨htok, rfl⟩

/-- Comma tokenizer used by the C7 witness: the token is everything before
the first comma. -/
def wReadField (s : List Char) : List Char × List Char :=
  (s.takeWhile (fun c => decide (c ≠ ',')), s.dropWhile (fun c => decide (c ≠ ',')))

/-- Witness for C7: on the input `12,x`, the stream position after the call
is right after the token `12`, whether every trial fails or one succeeds. -/
theorem no_cursor_drift_on_failed_trials_witness :
    (tryDeserializeText wReadField (fun _ => (none : Option Nat)) ['1', '2', ',', 'x']).2
      = (['1', '2', ',', 'x'] : List Char).drop (wReadField ['1', '2', ',', 'x']).1.length ∧
    (tryDeserializeText wReadField (fun _ => (some 12 : Option Nat)) ['1', '2', ',', 'x']).2
      = (tryDeserializeText wReadField (fun _ => (none : Option Nat)) ['1', '2', ',', 'x']).2 :=
  no_cursor_drift_on_failed_trials wReadField ['1', '2', ',', 'x']
    (fun _ => none) (fun _ => some 12) (by decide)

end SerializationVariant

namespace NpyOutputFormat

/-- Error codes raised by NpyOutputFormat.cpp (namespace ErrorCodes). -/
inductive NpyError where
  | TOO_MANY_COLUMNS (got : Nat)
  | BAD_ARGUMENTS
  | ILLEGAL_COLUMN
deriving DecidableEq

/-- Data types handled by NpyOutputFormat.cpp (the TypeIndex cases of
`initialize`). -/
inductive NpyType where
  | int8 | int16 | int32 | int64
  | uint8 | uint16 | uint32 | uint64
  | float32 | float64
  | fixedString (n : Nat)
  | string
  | array (nested : NpyType)
deriving DecidableEq

/-- `NpyOutputFormat::NpyOutputFormat` from the source: the constructor takes
the output buffer and the header; if the header has more than one column data
type it throws TOO_MANY_COLUMNS with the actual count, otherwise it records
the single data type.  The constructor writes nothing to the buffer in either
branch, so the untouched buffer is returned alongside the result. -/
def mkNpyOutputFormat (out : List Nat) (data_types : List NpyType) :
    Except NpyError (Option NpyType) × List Nat :=
  if 1 < data_types.length then
    (Except.error (NpyError.TOO_MANY_COLUMNS data_types.length), out)
  else
    (Except.ok data_types.head?, out)

/-- C8: supplying more than one column to the single-column Npy output format
makes construction fail immediately with TOO_MANY_COLUMNS carrying the
offending column count; the output buffer is untouched (no bytes written) and
no state is produced beyond the error. -/
theorem too_many_columns_rejected (out : List Nat) (data_types : List NpyType)
    (h : 1 < data_types.length) :
    mkNpyOutputFormat out data_types
      = (Except.error (NpyError.TOO_MANY_COLUMNS data_types.length), out) := by
  simp [mkNpyOutputFormat, h]

/-- Witness for C8: two columns are rejected with TOO_MANY_COLUMNS 2 and the
empty output buffer stays empty. -/
theorem too_many_columns_rejected_witness :
    mkNpyOutputFormat [] [NpyType.int8, NpyType.string]
      = (Except.error (NpyError.TOO_MANY_COLUMNS 2), []) :=
  too_many_columns_rejected [] [NpyType.int8, NpyType.string] (by decide)

/-- `NpyOutputFormat::NumpyDataType` from the source. -/
structure NumpyDataType where
  endianness : Char
  type : Char
  size : Nat

/-- `NumpyDataType::str()` from the source: endianness, type character, then
the decimal size. -/
def NumpyDataType.str (d : NumpyDataType) : String :=
  String.mk [d.endianness, d.type] ++ toString d.size

/-- Magic string and version bytes of the npy format, as one byte list.
Modelled from the spec: the constants MAGIC_STRING, MAJOR_VERSION and
MINOR_VERSION live in NpyOutputFormat.h, which is not part of the excerpt;
these are the npy magic `\x93NUMPY` and versions 1, 0 that the format
implements. The header-structure theorems below do not depend on the exact
values, only on this list being what `writeHeader` emits first. -/
def static_header : List Nat := [0x93, 0x4E, 0x55, 0x4D, 0x50, 0x59, 1, 0]

/-- Bytes of an ASCII string, one per character. -/
def strBytes (s : String) : List Nat := s.data.map Char.toNat

/-- Little-endian four-byte encoding written by writeBinaryLittleEndian for a
UInt32 value. -/
def uint32le (n : Nat) : List Nat :=
  [n % 256, n / 256 % 256, n / 65536 % 256, n / 16777216 % 256]

/-- The four parts written by `NpyOutputFormat::writeHeader`, in order:
static header, the dict-length field value, the dict string bytes, the
padding bytes. -/
structure NpyHeader where
  staticPart : List Nat
  dict_length : Nat
  dictPart : List Nat
  paddingPart : List Nat

/-- All bytes of the header in write order (the dict-length field is written
as four little-endian bytes). -/
def NpyHeader.bytes (h : NpyHeader) : List Nat :=
  h.staticPart ++ uint32le h.dict_length ++ h.dictPart ++ h.paddingPart

/-- Initial dict length: the dict string plus one byte of padding. -/
def dictLength0 (s : String) : Nat := s.length + 1

/-- Header length before rounding: static header, 4-byte length field, dict
plus one padding byte. -/
def headerLength0 (s : String) : Nat := static_header.length + 4 + dictLength0 s

/-- Header length rounded up to the next multiple of 64 (source:
`((header_length / 64) + 1) * 64`). -/
def headerLengthRounded (s : String) : Nat := (headerLength0 s / 64 + 1) * 64

/-- Dict length after rounding (source:
`header_length - static_header_str.length() - sizeof(UInt32)`). -/
def dictLengthRounded (s : String) : Nat :=
  headerLengthRounded s - static_header.length - 4

/-- The header-completion logic of `NpyOutputFormat::writeHeader` applied to
an already-built dict string: if the unpadded header length is divisible by
64 the padding is a single newline, otherwise the dict length is recomputed
from the rounded header length and the padding is the needed number of
spaces with the last byte replaced by a newline. -/
def mkHeader (dict_str : String) : NpyHeader :=
  if headerLength0 dict_str % 64 = 0 then
    ⟨static_header, dictLength0 dict_str, strBytes dict_str, [10]⟩
  else
    ⟨static_header, dictLengthRounded dict_str, strBytes dict_str,
      (List.replicate (dictLengthRounded dict_str - dict_str.length) 32).dropLast ++ [10]⟩

/-- `NpyOutputFormat::writeHeader` from the source: build the shape tuple and
the descr dict, then complete the header to a multiple of 64 bytes. -/
def writeHeader (num_rows : Nat) (numpy_shape : List Nat) (d : NumpyDataType) : NpyHeader :=
  mkHeader ("\x7b\x27descr\x27:\x27" ++ d.str
    ++ "\x27,\x27fortran_order\x27:False,\x27shape\x27:"
    ++ "(" ++ toString num_rows ++ ","
    ++ String.join (numpy_shape.map (fun m => toString m ++ ",")) ++ ")" ++ ",\x7d")

theorem static_header_length : static_header.length = 8 := rfl

theorem strBytes_length (s : String) : (strBytes s).length = s.length := by
  cases s
  simp [strBytes, String.length]

theorem uint32le_length (n : Nat) : (uint32le n).length = 4 := rfl

theorem mkHeader_invariants (s : String) :
    (mkHeader s).bytes.length % 64 = 0 ∧
    (mkHeader s).paddingPart ≠ [] ∧
    (mkHeader s).paddingPart.getLast? = some 10 ∧
    (mkHeader s).dict_length = (mkHeader s).dictPart.length + (mkHeader s).paddingPart.length := by
  unfold mkHeader
  by_cases h : headerLength0 s % 64 = 0
  · rw [if_pos h]
    unfold headerLength0 dictLength0 at h
    rw [static_header_length] at h
    refine ⟨?_, by simp, by simp, ?_⟩
    · simp only [NpyHeader.bytes, List.length_append, static_header_length, uint32le_length,
        strBytes_length, List.length_cons, List.length_nil]
      omega
    · simp [dictLength0, strBytes_length]
  · rw [if_neg h]
    unfold dictLengthRounded headerLengthRounded headerLength0 dictLength0 at *
    rw [static_header_length] at *
    have hpadlen :
        ((List.replicate (((s.length + 1 + 12) / 64 + 1) * 64 - 8 - 4 - s.length) 32).dropLast
          ++ [10]).length
          = ((s.length + 1 + 12) / 64 + 1) * 64 - 8 - 4 - s.length := by
      simp only [List.length_append, List.length_dropLast, List.length_replicate,
        List.length_cons, List.length_nil]
      omega
    refine ⟨?_, by simp, List.getLast?_concat _, ?_⟩
    · simp only [NpyHeader.bytes, List.length_append, static_header_length, uint32le_length,
        strBytes_length, List.length_dropLast, List.length_replicate, List.length_cons,
        List.length_nil]
      omega
    · simp only [strBytes_length, List.length_append, List.length_dropLast,
        List.length_replicate, List.length_cons, List.length_nil]
      omega

/-- C9: the header emitted by `writeHeader` always has total byte length
(magic and version bytes, 4-byte little-endian dict-length field, dict
string, padding) divisible by 64; the padding is nonempty and ends with a
newline; and the dict-length field value equals the number of dict-plus-
padding bytes actually written. -/
theorem header_invariants (num_rows : Nat) (numpy_shape : List Nat) (d : NumpyDataType) :
    (writeHeader num_rows numpy_shape d).bytes.length % 64 = 0 ∧
    (writeHeader num_rows numpy_shape d).paddingPart ≠ [] ∧
    (writeHeader num_rows numpy_shape d).paddingPart.getLast? = some 10 ∧
    (writeHeader num_rows numpy_shape d).dict_length
      = (writeHeader num_rows numpy_shape d).dictPart.length
        + (writeHeader num_rows numpy_shape d).paddingPart.length :=
  mkHeader_invariants _

end NpyOutputFormat

namespace NpyOutputFormat

/-- Columns as NpyOutputFormat.cpp consumes them: a numeric leaf column, a
String leaf column represented by its cumulative end offsets (ColumnString),
or an Array column with cumulative end offsets and the flattened nested
column (ColumnArray).  The source walks the static Array data type with
assert-casts on the column; for a column that matches its declared type — the
only case the format ever receives — the walk follows exactly these
constructors, so the column drives the walk here. -/
inductive NpyCol where
  | num (data : List Int)
  | str (offsets : List Nat)
  | arr (offsets : List Nat) (nested : NpyCol)
deriving DecidableEq

/-- `chunk.getNumRows()` for the outermost column. -/
def topRowCount : NpyCol → Nat
  | NpyCol.num data => data.length
  | NpyCol.str offsets => offsets.length
  | NpyCol.arr offsets _ => offsets.length

/-- The shape extraction of `NpyOutputFormat::initialize`: walk the Array
nesting, pushing `getOffsets()[0]` — the length of the first row at that
depth — for every level. -/
def extractShape : NpyCol → List Nat
  | NpyCol.arr offsets nested => offsets.headD 0 :: extractShape nested
  | _ => []

/-- The differences `offsets[i] - offsets[i-1]` for `i` from 1 to
`offsets.size() - 1`, exactly the values inspected by the shape-check loop of
`NpyOutputFormat::consume` (which starts at `i = 1`). -/
def adjacentDiffs (offsets : List Nat) : List Nat :=
  (offsets.zip offsets.tail).map (fun p => p.2 - p.1)

/-- The shape check of `NpyOutputFormat::consume`: at every Array depth,
every inspected row length must equal the fixed shape entry for that depth;
`false` means the ILLEGAL_COLUMN exception is thrown. -/
def shapeCheckOk (shape : List Nat) : NpyCol → Nat → Bool
  | NpyCol.arr offsets nested, dim =>
      (adjacentDiffs offsets).all (fun len => len == shape.getD dim 0)
        && shapeCheckOk shape nested (dim + 1)
  | _, _ => true

/-- The innermost (non-Array) column reached by the walk of `consume`. -/
def leafOf : NpyCol → NpyCol
  | NpyCol.arr _ nested => leafOf nested
  | c => c

/-- String lengths `offsets[i] - 1 - offsets[i-1]` (with `offsets[-1] = 0`)
computed by the String branch of `consume`. -/
def strLengths (offsets : List Nat) : List Nat :=
  ((0 :: offsets).zip offsets).map (fun p => p.2 - 1 - p.1)

/-- The running maximum string length update of `consume` (the ternary
assignment to `numpy_data_type.size`). -/
def updateStrSize (size : Nat) : NpyCol → Nat
  | NpyCol.str offsets => (strLengths offsets).foldl (fun a b => if a > b then a else b) size
  | _ => size

/-- The mutable fields of NpyOutputFormat that `consume` touches. -/
structure NpyState where
  numpy_shape : List Nat
  type_size : Nat
  is_initialized : Bool
  num_rows : Nat
  columns : List NpyCol
deriving DecidableEq

/-- State of a freshly constructed NpyOutputFormat. -/
def initialState : NpyState :=
  { numpy_shape := [], type_size := 0, is_initialized := false, num_rows := 0, columns := [] }

/-- `NpyOutputFormat::consume` from the source: add the chunk row count, run
`initialize` on the first chunk (fixing `numpy_shape` from the first row at
every depth), check the shape of the inspected rows at every depth (throwing
ILLEGAL_COLUMN on a mismatch), update the maximum string length for String
columns, and append the flattened nested column. -/
def consume (st : NpyState) (chunk : NpyCol) : Except NpyError NpyState :=
  let st1 := { st with num_rows := st.num_rows + topRowCount chunk }
  let st2 := if st1.is_initialized then st1
             else { st1 with numpy_shape := extractShape chunk, is_initialized := true }
  if shapeCheckOk st2.numpy_shape chunk 0 then
    Except.ok { st2 with
      type_size := updateStrSize st2.type_size (leafOf chunk)
      columns := st2.columns ++ [leafOf chunk] }
  else Except.error NpyError.ILLEGAL_COLUMN

/-- Two consecutive consume calls starting from the fresh state. -/
def consumeTwo (c1 c2 : NpyCol) : Except NpyError NpyState :=
  match consume initialState c1 with
  | Except.ok s1 => consume s1 c2
  | Except.error e => Except.error e

/-- Length of the first row of an Array column at the top depth
(`offsets[0]`). -/
def firstRowLength : NpyCol → Nat
  | NpyCol.arr offsets _ => offsets.headD 0
  | _ => 0

instance {ε α : Type} [DecidableEq ε] [DecidableEq α] : DecidableEq (Except ε α) := fun
  | Except.ok a, Except.ok b =>
    if h : a = b then isTrue (by rw [h]) else isFalse (by intro he; cases he; exact h rfl)
  | Except.ok _, Except.error _ => isFalse (by intro he; cases he)
  | Except.error _, Except.ok _ => isFalse (by intro he; cases he)
  | Except.error e, Except.error f =>
    if h : e = f then isTrue (by rw [h]) else isFalse (by intro he; cases he; exact h rfl)

/-- C10: the shape-check loop of `consume` starts at row index 1 of each
chunk, so the first row of every chunk after the first is never checked: a
second chunk `[[30]]` whose first row has length 1 is accepted and appended
even though the shape was fixed to 2 by the first chunk `[[10, 20]]` — no
ILLEGAL_COLUMN is thrown, contradicting the claim that any deviating
subsequent row is rejected.  A deviation in a later row of the same chunk is
caught, which shows the check itself is present. -/
theorem ragged_first_row_of_later_chunk_accepted :
    consumeTwo (NpyCol.arr [2] (NpyCol.num [10, 20])) (NpyCol.arr [1] (NpyCol.num [30]))
      = Except.ok
          { numpy_shape := [2], type_size := 0, is_initialized := true, num_rows := 2,
            columns := [NpyCol.num [10, 20], NpyCol.num [30]] } ∧
    extractShape (NpyCol.arr [2] (NpyCol.num [10, 20])) = [2] ∧
    firstRowLength (NpyCol.arr [1] (NpyCol.num [30])) = 1 ∧
    consumeTwo (NpyCol.arr [2] (NpyCol.num [10, 20]))
        (NpyCol.arr [3, 4] (NpyCol.num [1, 2, 3, 4]))
      = Except.error NpyError.ILLEGAL_COLUMN := by
  decide

end NpyOutputFormat
